import Mathlib

/-!
Shallow embedding of the MD-Viewer trajectory–excitation analysis engine
(`app/static/js/viewer.js`), together with proofs of the behavioural
properties of its core algorithms: temporal alignment of excitation data
(`MolecularCharts.findClosestExcitationData`), spectral synthesis
(`MolecularCharts.generateSpectrum`, `calculateGlobalYAxisMax`), the
twist-angle correlation binner (`createDMABNChart`), representative-pair
selection (`findBestComparisonPair`) and bond inference
(`MolecularViewer.createBonds`).

JavaScript numbers are modelled as exact rationals; where the NaN/Infinity
behaviour of a JS value matters (the oscillator-strength type gate of the
correlation builder) a dedicated `JSNum` type mirrors the JS semantics.
`Math.exp` is carried as an abstract function parameter `e : ℚ → ℚ`, so
every theorem below holds for the actual exponential in particular.
-/

/-! ## Excitation samples (MolecularCharts.excitationData records) -/

/-- One record of `MolecularCharts.excitationData`.  Raw records loaded from
the backend carry `interpolated := false` (the field is absent, i.e. falsy,
on raw JS objects); `findClosestExcitationData` marks synthesized records
with `interpolated := true`. -/
structure ExcSample where
  time_fs : ℚ
  time_ps : ℚ
  s1_energy : ℚ
  s1_oscillator : ℚ
  s2_energy : ℚ
  s2_oscillator : ℚ
  energy_gap : ℚ
  interpolated : Bool
deriving DecidableEq

/-- The bracketing-pair search loop of `findClosestExcitationData`
(viewer.js:3121-3128): the first index `i` with
`data[i].time_fs <= t && data[i+1].time_fs >= t`, if any. -/
def findBracket : List ExcSample → ℚ → Option ℕ
  | a :: b :: rest, t =>
      if a.time_fs ≤ t ∧ b.time_fs ≥ t then some 0
      else (findBracket (b :: rest) t).map (· + 1)
  | _, _ => none

/-- The fallback closest-point scan of `findClosestExcitationData`
(viewer.js:3131-3145): running minimum of `|time_fs − t|`, strict `<`,
starting from `minDiff = Infinity`, `closest = null`. -/
def closestSample (data : List ExcSample) (t : ℚ) : Option ExcSample :=
  data.foldl
    (fun acc s =>
      match acc with
      | none => some s
      | some c => if |s.time_fs - t| < |c.time_fs - t| then some s else some c)
    none

/-- `MolecularCharts.findClosestExcitationData` (viewer.js:3101-3168). -/
def findClosestExcitationData (data : List ExcSample) (t : ℚ) : Option ExcSample :=
  match data with
  | [] => none
  | first :: rest =>
    if t < first.time_fs then some first
    else
      let last := (first :: rest).getLast (List.cons_ne_nil _ _)
      if t > last.time_fs then some last
      else
        match findBracket (first :: rest) t with
        | none => closestSample (first :: rest) t
        | some i =>
          let before := (first :: rest).getD i first
          let after := (first :: rest).getD (i + 1) first
          let timeDiff := after.time_fs - before.time_fs
          let fraction := (t - before.time_fs) / timeDiff
          some
            { time_fs := t
              time_ps := t / 1000
              s1_energy := before.s1_energy + fraction * (after.s1_energy - before.s1_energy)
              s1_oscillator :=
                before.s1_oscillator + fraction * (after.s1_oscillator - before.s1_oscillator)
              s2_energy := before.s2_energy + fraction * (after.s2_energy - before.s2_energy)
              s2_oscillator :=
                before.s2_oscillator + fraction * (after.s2_oscillator - before.s2_oscillator)
              energy_gap :=
                (before.s2_energy + fraction * (after.s2_energy - before.s2_energy)) -
                  (before.s1_energy + fraction * (after.s1_energy - before.s1_energy))
              interpolated := true }

/-- Strict time-ordering of a loaded excitation series (the backend emits
samples sorted by time with no duplicates). -/
def TimeSorted (data : List ExcSample) : Prop :=
  data.Chain' (fun a b => a.time_fs < b.time_fs)

example : findBracket [] 3 = none := by decide

/-- A raw two-sample series used to exhibit the knot behaviour. -/
def exS0 : ExcSample :=
  { time_fs := 0, time_ps := 0, s1_energy := 4, s1_oscillator := 1/10
    s2_energy := 5, s2_oscillator := 2/5, energy_gap := 1, interpolated := false }

/-- Second raw sample of the two-sample series. -/
def exS1 : ExcSample :=
  { time_fs := 100, time_ps := 1/10, s1_energy := 42/10, s1_oscillator := 3/10
    s2_energy := 48/10, s2_oscillator := 1/5, energy_gap := 6/10, interpolated := false }

/-- The two-sample series. -/
def exData2 : List ExcSample := [exS0, exS1]

example : (findClosestExcitationData exData2 100).map (·.interpolated) = some true := by
  with_unfolding_all decide
example : (findClosestExcitationData exData2 0).map (·.interpolated) = some true := by
  with_unfolding_all decide
example : findClosestExcitationData exData2 (-5) = some exS0 := by with_unfolding_all decide
example : findClosestExcitationData exData2 101 = some exS1 := by with_unfolding_all decide
example : (findClosestExcitationData exData2 50).map (·.s1_oscillator) = some (2/10) := by
  with_unfolding_all decide

/-! ## Ordering facts about sorted excitation series -/

theorem timeSorted_pairwise {l : List ExcSample} (h : TimeSorted l) :
    l.Pairwise (fun a b => a.time_fs < b.time_fs) := by
  have : IsTrans ExcSample (fun a b => a.time_fs < b.time_fs) :=
    ⟨fun a b c hab hbc => lt_trans hab hbc⟩
  exact List.chain'_iff_pairwise.mp h

theorem head_time_le_get {b : ExcSample} {rest : List ExcSample}
    (hp : (b :: rest).Pairwise (fun a c => a.time_fs < c.time_fs))
    (k : ℕ) (hk : k < (b :: rest).length) :
    b.time_fs ≤ ((b :: rest).get ⟨k, hk⟩).time_fs := by
  cases k with
  | zero => exact le_refl _
  | succ k' =>
    have hk' : k' < rest.length := by simpa using hk
    have hmem : rest.get ⟨k', hk'⟩ ∈ rest := List.get_mem rest k' hk'
    exact le_of_lt ((List.pairwise_cons.mp hp).1 _ hmem)

theorem get_time_le_getLast {l : List ExcSample}
    (hp : l.Pairwise (fun a c => a.time_fs < c.time_fs)) (hne : l ≠ [])
    (k : ℕ) (hk : k < l.length) :
    (l.get ⟨k, hk⟩).time_fs ≤ (l.getLast hne).time_fs := by
  have hlen : l.length - 1 < l.length := Nat.sub_lt (List.length_pos.mpr hne) one_pos
  rw [List.getLast_eq_getElem _ hne]
  rcases lt_or_eq_of_le (Nat.le_sub_one_of_lt hk) with hlt | heq
  · exact le_of_lt (List.pairwise_iff_get.mp hp ⟨k, hk⟩ ⟨l.length - 1, hlen⟩ hlt)
  · subst heq
    rw [List.get_eq_getElem]

/-! ## Behaviour of the bracketing-pair search -/

theorem findBracket_strict :
    ∀ (l : List ExcSample) (t : ℚ) (i : ℕ)
      (_hp : l.Pairwise (fun a c => a.time_fs < c.time_fs))
      (hi : i + 1 < l.length),
      (l.get ⟨i, Nat.lt_of_succ_lt hi⟩).time_fs < t →
      t < (l.get ⟨i + 1, hi⟩).time_fs →
      findBracket l t = some i := by
  intro l
  induction l with
  | nil => intro t i hp hi; simp at hi
  | cons a tail ih =>
    intro t i hp hi h1 h2
    cases tail with
    | nil => simp at hi
    | cons b rest =>
      cases i with
      | zero =>
        have hcond : a.time_fs ≤ t ∧ b.time_fs ≥ t := ⟨le_of_lt h1, le_of_lt h2⟩
        simp only [findBracket, if_pos hcond]
      | succ i' =>
        have hi' : i' + 1 < (b :: rest).length := by simpa using hi
        have hbt : b.time_fs < t := by
          have hble : b.time_fs ≤ ((b :: rest).get ⟨i', Nat.lt_of_succ_lt hi'⟩).time_fs :=
            head_time_le_get (List.pairwise_cons.mp hp).2 i' (Nat.lt_of_succ_lt hi')
          exact lt_of_le_of_lt hble h1
        have hcond : ¬(a.time_fs ≤ t ∧ b.time_fs ≥ t) := by
          rintro ⟨-, hge⟩
          exact absurd hbt (not_lt.mpr hge)
        have hrec := ih t i' (List.pairwise_cons.mp hp).2 hi' h1 h2
        simp only [findBracket, if_neg hcond, hrec, Option.map_some']

theorem findBracket_knot :
    ∀ (l : List ExcSample) (t : ℚ) (j : ℕ)
      (_hp : l.Pairwise (fun a c => a.time_fs < c.time_fs))
      (_hlen : 2 ≤ l.length) (hj : j < l.length),
      t = (l.get ⟨j, hj⟩).time_fs →
      findBracket l t = some (j - 1) := by
  intro l
  induction l with
  | nil => intro t j hp hlen; simp at hlen
  | cons a tail ih =>
    intro t j hp hlen hj ht
    cases tail with
    | nil => simp at hlen
    | cons b rest =>
      have hab : a.time_fs < b.time_fs :=
        (List.pairwise_cons.mp hp).1 b (List.mem_cons_self b rest)
      cases j with
      | zero =>
        have hcond : a.time_fs ≤ t ∧ b.time_fs ≥ t := by
          constructor
          · exact le_of_eq ht.symm
          · rw [ht]; exact le_of_lt hab
        simp only [findBracket, if_pos hcond]
      | succ j' =>
        cases j' with
        | zero =>
          have hcond : a.time_fs ≤ t ∧ b.time_fs ≥ t := by
            constructor
            · rw [ht]; exact le_of_lt hab
            · exact le_of_eq ht
          simp only [findBracket, if_pos hcond]
        | succ j'' =>
          have hj' : j'' + 1 < (b :: rest).length := by simpa using hj
          have hbt : b.time_fs < t := by
            have hmem : rest.get ⟨j'', by simpa using hj'⟩ ∈ rest :=
              List.get_mem rest j'' (by simpa using hj')
            have := (List.pairwise_cons.mp (List.pairwise_cons.mp hp).2).1 _ hmem
            rw [ht]
            exact this
          have hcond : ¬(a.time_fs ≤ t ∧ b.time_fs ≥ t) := by
            rintro ⟨-, hge⟩
            exact absurd hbt (not_lt.mpr hge)
          have hlen' : 2 ≤ (b :: rest).length := by
            have := hj'
            simp only [List.length_cons] at this ⊢
            omega
          have hrec := ih t (j'' + 1) (List.pairwise_cons.mp hp).2 hlen' hj' ht
          simp only [findBracket, if_neg hcond, hrec, Option.map_some']
          rfl

/-! ## Unfolding `findClosestExcitationData` on a located bracket -/

theorem findClosest_eq_of_bracket {first : ExcSample} {rest : List ExcSample}
    {t : ℚ} {i : ℕ} {B A : ExcSample}
    (hi : i + 1 < (first :: rest).length)
    (hB : (first :: rest).get ⟨i, Nat.lt_of_succ_lt hi⟩ = B)
    (hA : (first :: rest).get ⟨i + 1, hi⟩ = A)
    (hbr : findBracket (first :: rest) t = some i)
    (hge : ¬ t < first.time_fs)
    (hle : ¬ t > ((first :: rest).getLast (List.cons_ne_nil _ _)).time_fs) :
    findClosestExcitationData (first :: rest) t = some
      { time_fs := t
        time_ps := t / 1000
        s1_energy :=
          B.s1_energy + (t - B.time_fs) / (A.time_fs - B.time_fs) * (A.s1_energy - B.s1_energy)
        s1_oscillator :=
          B.s1_oscillator +
            (t - B.time_fs) / (A.time_fs - B.time_fs) * (A.s1_oscillator - B.s1_oscillator)
        s2_energy :=
          B.s2_energy + (t - B.time_fs) / (A.time_fs - B.time_fs) * (A.s2_energy - B.s2_energy)
        s2_oscillator :=
          B.s2_oscillator +
            (t - B.time_fs) / (A.time_fs - B.time_fs) * (A.s2_oscillator - B.s2_oscillator)
        energy_gap :=
          (B.s2_energy + (t - B.time_fs) / (A.time_fs - B.time_fs) * (A.s2_energy - B.s2_energy)) -
            (B.s1_energy + (t - B.time_fs) / (A.time_fs - B.time_fs) * (A.s1_energy - B.s1_energy))
        interpolated := true } := by
  simp only [findClosestExcitationData, if_neg hge, if_neg hle, hbr]
  rw [List.getD_eq_get _ _ (Nat.lt_of_succ_lt hi), List.getD_eq_get _ _ hi, hB, hA]

/-- C4: for a query time strictly between two consecutive sample times, the
result is the record whose every numeric field (the time fields included,
given the load-time invariant `time_ps = time_fs / 1000`) is the independent
linear interpolation of the bracketing samples' values with fraction
`f = (t − t_i) / (t_{i+1} − t_i)`, whose energy gap is recomputed from the
interpolated primary energies, and which is flagged `interpolated = true`. -/
theorem findSample_interior_interpolates (data : List ExcSample) (t : ℚ) (i : ℕ)
    (B A : ExcSample)
    (hs : TimeSorted data)
    (hi : i + 1 < data.length)
    (hB : data.get ⟨i, Nat.lt_of_succ_lt hi⟩ = B)
    (hA : data.get ⟨i + 1, hi⟩ = A)
    (hps : ∀ s ∈ data, s.time_ps = s.time_fs / 1000)
    (h1 : B.time_fs < t) (h2 : t < A.time_fs) :
    findClosestExcitationData data t = some
      { time_fs := t
        time_ps := B.time_ps + (t - B.time_fs) / (A.time_fs - B.time_fs) * (A.time_ps - B.time_ps)
        s1_energy :=
          B.s1_energy + (t - B.time_fs) / (A.time_fs - B.time_fs) * (A.s1_energy - B.s1_energy)
        s1_oscillator :=
          B.s1_oscillator +
            (t - B.time_fs) / (A.time_fs - B.time_fs) * (A.s1_oscillator - B.s1_oscillator)
        s2_energy :=
          B.s2_energy + (t - B.time_fs) / (A.time_fs - B.time_fs) * (A.s2_energy - B.s2_energy)
        s2_oscillator :=
          B.s2_oscillator +
            (t - B.time_fs) / (A.time_fs - B.time_fs) * (A.s2_oscillator - B.s2_oscillator)
        energy_gap :=
          (B.s2_energy + (t - B.time_fs) / (A.time_fs - B.time_fs) * (A.s2_energy - B.s2_energy)) -
            (B.s1_energy + (t - B.time_fs) / (A.time_fs - B.time_fs) * (A.s1_energy - B.s1_energy))
        interpolated := true } := by
  have hp := timeSorted_pairwise hs
  cases data with
  | nil => simp at hi
  | cons first rest =>
    have hge : ¬ t < first.time_fs := by
      have h0 : first.time_fs ≤ ((first :: rest).get ⟨i, Nat.lt_of_succ_lt hi⟩).time_fs :=
        head_time_le_get hp i (Nat.lt_of_succ_lt hi)
      rw [hB] at h0
      exact not_lt.mpr (le_of_lt (lt_of_le_of_lt h0 h1))
    have hle : ¬ t > ((first :: rest).getLast (List.cons_ne_nil _ _)).time_fs := by
      have hL : ((first :: rest).get ⟨i + 1, hi⟩).time_fs ≤
          ((first :: rest).getLast (List.cons_ne_nil _ _)).time_fs :=
        get_time_le_getLast hp (List.cons_ne_nil _ _) (i + 1) hi
      rw [hA] at hL
      exact not_lt.mpr (le_of_lt (lt_of_lt_of_le h2 hL))
    have h1' : ((first :: rest).get ⟨i, Nat.lt_of_succ_lt hi⟩).time_fs < t := by rw [hB]; exact h1
    have h2' : t < ((first :: rest).get ⟨i + 1, hi⟩).time_fs := by rw [hA]; exact h2
    have hbr := findBracket_strict (first :: rest) t i hp hi h1' h2'
    rw [findClosest_eq_of_bracket hi hB hA hbr hge hle]
    have hBmem : B ∈ first :: rest := by rw [← hB]; exact List.get_mem _ _ _
    have hAmem : A ∈ first :: rest := by rw [← hA]; exact List.get_mem _ _ _
    have hd : A.time_fs - B.time_fs ≠ 0 := sub_ne_zero.mpr (ne_of_gt (lt_trans h1 h2))
    simp only [Option.some.injEq, ExcSample.mk.injEq, and_true, true_and, eq_self_iff_true]
    rw [hps B hBmem, hps A hAmem]
    field_simp

/-- The spec's end-to-end example series: samples at t = 0,100,200,300,400 fs
with oscillator_1 = [0.1, 0.3, 0.5, 0.2, 0.05] and
oscillator_2 = [0.4, 0.2, 0.1, 0.3, 0.5]. -/
def exData5 : List ExcSample :=
  [ { time_fs := 0, time_ps := 0, s1_energy := 4, s1_oscillator := 1/10
      s2_energy := 5, s2_oscillator := 2/5, energy_gap := 1, interpolated := false }
  , { time_fs := 100, time_ps := 1/10, s1_energy := 41/10, s1_oscillator := 3/10
      s2_energy := 49/10, s2_oscillator := 1/5, energy_gap := 8/10, interpolated := false }
  , { time_fs := 200, time_ps := 2/10, s1_energy := 42/10, s1_oscillator := 1/2
      s2_energy := 48/10, s2_oscillator := 1/10, energy_gap := 6/10, interpolated := false }
  , { time_fs := 300, time_ps := 3/10, s1_energy := 43/10, s1_oscillator := 1/5
      s2_energy := 47/10, s2_oscillator := 3/10, energy_gap := 4/10, interpolated := false }
  , { time_fs := 400, time_ps := 4/10, s1_energy := 44/10, s1_oscillator := 1/20
      s2_energy := 46/10, s2_oscillator := 1/2, energy_gap := 2/10, interpolated := false } ]

/-- Witness for C4 at the spec's worked example: querying `t = 150` on
`exData5` interpolates with fraction 1/2 and yields `oscillator_1 = 0.4`,
`oscillator_2 = 0.15`, flagged interpolated, so state 1 dominates. -/
theorem findSample_interior_interpolates_witness :
    (findClosestExcitationData exData5 150).map (·.s1_oscillator) = some (2/5) ∧
    (findClosestExcitationData exData5 150).map (·.s2_oscillator) = some (3/20) ∧
    (findClosestExcitationData exData5 150).map (·.interpolated) = some true ∧
    ((2 : ℚ)/5 > 3/20) := by
  have h := findSample_interior_interpolates exData5 150 1
    (exData5.get ⟨1, by with_unfolding_all decide⟩)
    (exData5.get ⟨2, by with_unfolding_all decide⟩)
    (by simp only [TimeSorted, exData5, List.chain'_cons, List.chain'_singleton, and_true]
        norm_num)
    (by with_unfolding_all decide) rfl rfl
    (by with_unfolding_all decide)
    (by with_unfolding_all decide)
    (by with_unfolding_all decide)
  rw [h]
  refine ⟨?_, ?_, ?_, ?_⟩ <;> with_unfolding_all decide


/-- C1 (amended): only a query strictly below the first sample's time (resp.
strictly above the last) returns that stored boundary sample unchanged.  A
query exactly equal to a knot time of a series with at least two samples does
NOT return the stored sample: the bracketing loop catches it and returns a
fresh record flagged `interpolated = true` whose primary numeric fields equal
the knot sample's values (interpolation fraction 0 or 1) and whose energy gap
is recomputed from them. -/
theorem findSample_clamp_and_knot (data : List ExcSample) (t : ℚ)
    (hs : TimeSorted data) (hne : data ≠ []) :
    (t < (data.head hne).time_fs → findClosestExcitationData data t = some (data.head hne)) ∧
    ((data.getLast hne).time_fs < t →
      findClosestExcitationData data t = some (data.getLast hne)) ∧
    (∀ (j : ℕ) (hj : j < data.length) (S : ExcSample), 2 ≤ data.length →
      data.get ⟨j, hj⟩ = S → t = S.time_fs →
      ∃ r, findClosestExcitationData data t = some r ∧
        r.interpolated = true ∧ r.time_fs = t ∧ r.time_ps = t / 1000 ∧
        r.s1_energy = S.s1_energy ∧ r.s1_oscillator = S.s1_oscillator ∧
        r.s2_energy = S.s2_energy ∧ r.s2_oscillator = S.s2_oscillator ∧
        r.energy_gap = S.s2_energy - S.s1_energy) := by
  have hp := timeSorted_pairwise hs
  cases data with
  | nil => exact absurd rfl hne
  | cons first rest =>
    refine ⟨?_, ?_, ?_⟩
    · intro hlt
      simp only [List.head_cons] at hlt ⊢
      simp only [findClosestExcitationData, if_pos hlt]
    · intro hgt
      have hfl : first.time_fs ≤ ((first :: rest).getLast hne).time_fs :=
        get_time_le_getLast hp hne 0 (by simp)
      have hge : ¬ t < first.time_fs := not_lt.mpr (le_of_lt (lt_of_le_of_lt hfl hgt))
      simp only [findClosestExcitationData, if_neg hge]
      rw [if_pos hgt]
    · intro j hj S hlen hS ht
      have hbr := findBracket_knot (first :: rest) t j hp hlen hj (by rw [hS]; exact ht)
      have hge : ¬ t < first.time_fs := by
        have h0 : first.time_fs ≤ ((first :: rest).get ⟨j, hj⟩).time_fs :=
          head_time_le_get hp j hj
        rw [hS] at h0
        rw [ht]
        exact not_lt.mpr h0
      have hle : ¬ t > ((first :: rest).getLast (List.cons_ne_nil _ _)).time_fs := by
        have hL := get_time_le_getLast hp (List.cons_ne_nil _ _) j hj
        rw [hS] at hL
        rw [ht]
        exact not_lt.mpr hL
      cases j with
      | zero =>
        have hi : (0 : ℕ) + 1 < (first :: rest).length := by
          simpa using hlen
        have hres := findClosest_eq_of_bracket hi hS rfl hbr hge hle
        refine ⟨_, hres, rfl, rfl, rfl, ?_, ?_, ?_, ?_, ?_⟩ <;>
          simp [ht, sub_self, zero_div, zero_mul, add_zero]
      | succ j' =>
        have hi : j' + 1 < (first :: rest).length := hj
        have hB : (first :: rest).get ⟨j', Nat.lt_of_succ_lt hi⟩ =
            (first :: rest).get ⟨j', Nat.lt_of_succ_lt hi⟩ := rfl
        have hres := findClosest_eq_of_bracket hi hB hS hbr hge hle
        have hden : S.time_fs - ((first :: rest).get ⟨j', Nat.lt_of_succ_lt hi⟩).time_fs ≠ 0 := by
          have hlt : ((first :: rest).get ⟨j', Nat.lt_of_succ_lt hi⟩).time_fs <
              ((first :: rest).get ⟨j' + 1, hi⟩).time_fs :=
            List.pairwise_iff_get.mp hp ⟨j', Nat.lt_of_succ_lt hi⟩ ⟨j' + 1, hi⟩
              (by exact Nat.lt_succ_self j')
          rw [hS] at hlt
          exact sub_ne_zero.mpr (ne_of_gt hlt)
        have hfrac :
            (t - ((first :: rest).get ⟨j', Nat.lt_of_succ_lt hi⟩).time_fs) /
              (S.time_fs - ((first :: rest).get ⟨j', Nat.lt_of_succ_lt hi⟩).time_fs) = 1 := by
          rw [ht]
          exact div_self hden
        refine ⟨_, hres, rfl, rfl, rfl, ?_, ?_, ?_, ?_, ?_⟩ <;>
          · show _ = _
            rw [hfrac]
            ring

/-- Witness for the amended C1 on the concrete two-sample series: querying at
the knot `t = 100` yields an interpolated-flagged record whose numeric fields
match the stored sample. -/
theorem findSample_clamp_and_knot_witness :
    TimeSorted exData2 ∧
    (∃ r, findClosestExcitationData exData2 100 = some r ∧
      r.interpolated = true ∧ r.time_fs = 100 ∧ r.time_ps = 100 / 1000 ∧
      r.s1_energy = exS1.s1_energy ∧ r.s1_oscillator = exS1.s1_oscillator ∧
      r.s2_energy = exS1.s2_energy ∧ r.s2_oscillator = exS1.s2_oscillator ∧
      r.energy_gap = exS1.s2_energy - exS1.s1_energy) := by
  have hs : TimeSorted exData2 := by
    simp only [TimeSorted, exData2, List.chain'_cons, List.chain'_singleton, and_true]
    norm_num [exS0, exS1]
  refine ⟨hs, ?_⟩
  exact (findSample_clamp_and_knot exData2 100 hs (List.cons_ne_nil _ _)).2.2 1
    (by with_unfolding_all decide) exS1 (by with_unfolding_all decide) rfl rfl

/-- Counterexample to C1 as stated: at `t = 100`, which is both the last
sample's time and a knot time of `exData2`, the function returns neither
stored sample; the returned record is flagged `interpolated = true`, while
the stored sample `exS1` is non-interpolated. -/
theorem findSample_knot_counterexample :
    findClosestExcitationData exData2 100 ≠ some exS1 ∧
    findClosestExcitationData exData2 100 ≠ some exS0 ∧
    (findClosestExcitationData exData2 100).map (·.interpolated) = some true ∧
    exS1.time_fs = 100 ∧ exS1.interpolated = false := by
  refine ⟨?_, ?_, ?_, rfl, rfl⟩ <;> with_unfolding_all decide

/-! ## JS number semantics for the correlation builder's oscillator gate -/

/-- A JavaScript number value: NaN, ±Infinity or a finite value (modelled
exactly as a rational). -/
inductive JSNum where
  | nan : JSNum
  | inf : JSNum
  | ninf : JSNum
  | num : ℚ → JSNum
deriving DecidableEq

/-- JavaScript strict `>` on numbers: any comparison with NaN is false,
`Infinity > x` except against itself or NaN, `-Infinity` exceeds nothing. -/
def JSNum.gt : JSNum → JSNum → Bool
  | .nan, _ => false
  | _, .nan => false
  | .inf, .inf => false
  | .inf, _ => true
  | _, .inf => false
  | .ninf, _ => false
  | .num _, .ninf => true
  | .num a, .num b => decide (b < a)

/-- One record of `window.dmabnCharts.excitationData` as read by
`createDMABNChart`.  An oscillator field holds `none` when the JS value is
not of number type (`undefined`, `null`, a string, ...); `some v` models a
number-typed value, which may still be NaN or ±Infinity. -/
structure ExcFrame where
  time_fs : ℚ
  s1_oscillator : Option JSNum
  s2_oscillator : Option JSNum
deriving DecidableEq

/-- One record of `window.dmabnCharts.geometryData`. -/
structure GeomFrame where
  time_fs : ℚ
  time_ps : ℚ
  twist_angle : ℚ
  ring_planarity : ℚ
  frame_number : ℕ
deriving DecidableEq

/-- One element of `correlationData` built by `createDMABNChart`. -/
structure CorrEntry where
  twist_angle : ℚ
  ring_planarity : ℚ
  s1_oscillator : JSNum
  s2_oscillator : JSNum
  time_ps : ℚ
  time_fs : ℚ
  frame_number : ℕ
  s1_dominant : Bool
deriving DecidableEq

/-- The nearest-sample scan of `createDMABNChart` (viewer.js:1651-1658):
running `closestExcitation` / `minTimeDiff` pair, strict `<`, starting from
`null` / `Infinity`. -/
def closestWithDiff (excs : List ExcFrame) (t : ℚ) : Option (ExcFrame × ℚ) :=
  excs.foldl
    (fun acc e =>
      match acc with
      | none => some (e, |e.time_fs - t|)
      | some (c, d) => if |e.time_fs - t| < d then some (e, |e.time_fs - t|) else some (c, d))
    none

/-- The correlation record pushed by `createDMABNChart` (viewer.js:1664-1673)
for a geometry frame `g` whose matched excitation sample carries
number-typed oscillator values `o1`, `o2`. -/
def mkCorrEntry (g : GeomFrame) (o1 o2 : JSNum) : CorrEntry :=
  { twist_angle := g.twist_angle
    ring_planarity := g.ring_planarity
    s1_oscillator := o1
    s2_oscillator := o2
    time_ps := g.time_ps
    time_fs := g.time_fs
    frame_number := g.frame_number
    s1_dominant := JSNum.gt o1 o2 }

/-- The `correlationData` construction of `createDMABNChart`
(viewer.js:1648-1675): for each geometry frame, match the nearest excitation
sample and keep the frame iff a match exists, its time gap is `< 50` fs and
both oscillator fields are of number type (`typeof ... === 'number'`). -/
def buildCorrelationData (geoms : List GeomFrame) (excs : List ExcFrame) : List CorrEntry :=
  geoms.filterMap (fun g =>
    match closestWithDiff excs g.time_fs with
    | none => none
    | some (c, d) =>
      if d < 50 then
        match c.s1_oscillator, c.s2_oscillator with
        | some o1, some o2 => some (mkCorrEntry g o1 o2)
        | _, _ => none
      else none)

/-- The acceptance gate applied to a geometry frame by the code above:
nearest sample exists, gap `< 50` fs, both oscillator fields number-typed.
Note the gate does NOT test finiteness. -/
def corrGate (excs : List ExcFrame) (g : GeomFrame) : Bool :=
  match closestWithDiff excs g.time_fs with
  | none => false
  | some (c, d) => decide (d < 50) && c.s1_oscillator.isSome && c.s2_oscillator.isSome

/-- Generic: the length of a `filterMap` is the number of elements on which
the function succeeds. -/
theorem length_filterMap_eq_count {α β : Type} (f : α → Option β) :
    ∀ l : List α, (l.filterMap f).length = (l.filter (fun a => (f a).isSome)).length := by
  intro l
  induction l with
  | nil => rfl
  | cons x xs ih =>
    cases h : f x with
    | none => simp [List.filterMap_cons, List.filter_cons, h, ih]
    | some b => simp [List.filterMap_cons, List.filter_cons, h, ih]

/-- C3 (amended): a geometry frame survives into `correlationData` exactly
when the gate `corrGate` accepts it — nearest sample within 50 fs and both
oscillator fields of number TYPE.  NaN or infinite number values pass the
`typeof`-based gate, so a frame whose matched sample carries them is kept
(its entry appears in the result), not dropped; the pass never aborts. -/
theorem corr_gate_characterization (geoms : List GeomFrame) (excs : List ExcFrame) :
    (buildCorrelationData geoms excs).length = (geoms.filter (corrGate excs)).length ∧
    (∀ g ∈ geoms, ∀ c d, closestWithDiff excs g.time_fs = some (c, d) → d < 50 →
      ∀ o1 o2, c.s1_oscillator = some o1 → c.s2_oscillator = some o2 →
        mkCorrEntry g o1 o2 ∈ buildCorrelationData geoms excs) := by
  constructor
  · rw [buildCorrelationData, length_filterMap_eq_count]
    congr 1
    apply List.filter_congr
    intro g _
    cases hc : closestWithDiff excs g.time_fs with
    | none => simp [corrGate, hc]
    | some p =>
      obtain ⟨c, d⟩ := p
      by_cases hd : d < 50
      · cases ho1 : c.s1_oscillator with
        | none => simp [corrGate, hc, hd, ho1]
        | some o1 =>
          cases ho2 : c.s2_oscillator with
          | none => simp [corrGate, hc, hd, ho1, ho2]
          | some o2 => simp [corrGate, hc, hd, ho1, ho2]
      · simp [corrGate, hc, hd]
  · intro g hg c d hc hd o1 o2 ho1 ho2
    refine List.mem_filterMap.mpr ⟨g, hg, ?_⟩
    rw [hc]
    simp only [if_pos hd, ho1, ho2]

/-- A geometry frame whose nearest excitation sample carries a NaN
oscillator value. -/
def gfNaN : GeomFrame :=
  { time_fs := 0, time_ps := 0, twist_angle := 10, ring_planarity := 1, frame_number := 7 }

/-- An excitation sample with `s1_oscillator = NaN` (number-typed). -/
def efNaN : ExcFrame :=
  { time_fs := 0, s1_oscillator := some JSNum.nan, s2_oscillator := some (JSNum.num 1) }

/-- Counterexample to C3 as stated: the frame matched to a sample whose
`s1_oscillator` is NaN is NOT dropped — `typeof NaN === 'number'` holds, so
the entry is pushed into `correlationData` with the NaN value. -/
theorem corr_keeps_nan_counterexample :
    (buildCorrelationData [gfNaN] [efNaN]).length = 1 ∧
    (buildCorrelationData [gfNaN] [efNaN]).map (·.s1_oscillator) = [JSNum.nan] := by
  with_unfolding_all decide

/-- Witness for the amended C3: the NaN-carrying sample passes every gate
hypothesis and its entry is a member of the built correlation data. -/
theorem corr_gate_characterization_witness :
    mkCorrEntry gfNaN JSNum.nan (JSNum.num 1) ∈ buildCorrelationData [gfNaN] [efNaN] := by
  exact (corr_gate_characterization [gfNaN] [efNaN]).2 gfNaN (by with_unfolding_all decide)
    efNaN 0 (by with_unfolding_all decide) (by with_unfolding_all decide)
    JSNum.nan (JSNum.num 1) rfl rfl

/-- Every correlation entry arises from a geometry frame accepted by the
gate, with the matched sample's number-typed oscillator values. -/
theorem mem_buildCorrelationData {geoms : List GeomFrame} {excs : List ExcFrame}
    {entry : CorrEntry} (he : entry ∈ buildCorrelationData geoms excs) :
    ∃ g ∈ geoms, ∃ c d, closestWithDiff excs g.time_fs = some (c, d) ∧ d < 50 ∧
      ∃ o1 o2, c.s1_oscillator = some o1 ∧ c.s2_oscillator = some o2 ∧
        entry = mkCorrEntry g o1 o2 := by
  obtain ⟨g, hg, heq⟩ := List.mem_filterMap.mp he
  cases hc : closestWithDiff excs g.time_fs with
  | none => rw [hc] at heq; simp at heq
  | some p =>
    obtain ⟨c, d⟩ := p
    rw [hc] at heq
    dsimp only at heq
    by_cases hd : d < 50
    · rw [if_pos hd] at heq
      cases ho1 : c.s1_oscillator with
      | none => rw [ho1] at heq; simp at heq
      | some o1 =>
        cases ho2 : c.s2_oscillator with
        | none => rw [ho1, ho2] at heq; simp at heq
        | some o2 =>
          rw [ho1, ho2] at heq
          simp only [Option.some.injEq] at heq
          exact ⟨g, hg, c, d, hc, hd, o1, o2, ho1, ho2, heq.symm⟩
    · rw [if_neg hd] at heq; simp at heq

/-- C7: for every correlated frame whose oscillator values are finite
numbers, the dominance label is state 1 exactly when `oscillator_1` is
strictly greater than `oscillator_2`; in particular equal values make the
label false, i.e. the frame counts as state2-dominant. -/
theorem dominance_strict_gt (geoms : List GeomFrame) (excs : List ExcFrame)
    (entry : CorrEntry) (he : entry ∈ buildCorrelationData geoms excs)
    (a b : ℚ) (h1 : entry.s1_oscillator = JSNum.num a)
    (h2 : entry.s2_oscillator = JSNum.num b) :
    (entry.s1_dominant = true ↔ b < a) ∧ (a = b → entry.s1_dominant = false) := by
  obtain ⟨g, -, c, d, -, -, o1, o2, -, -, hentry⟩ := mem_buildCorrelationData he
  subst hentry
  simp only [mkCorrEntry] at h1 h2 ⊢
  subst h1
  subst h2
  constructor
  · simp [JSNum.gt]
  · intro hab
    simp [JSNum.gt, hab]

/-- A geometry frame for the dominance-tie witness. -/
def gfTie : GeomFrame :=
  { time_fs := 0, time_ps := 0, twist_angle := 20, ring_planarity := 1, frame_number := 3 }

/-- An excitation sample with equal finite oscillator strengths. -/
def efTie : ExcFrame :=
  { time_fs := 0, s1_oscillator := some (JSNum.num (1/4))
    s2_oscillator := some (JSNum.num (1/4)) }

/-- Witness for C7 at a concrete tie: equal oscillator strengths label the
frame state2-dominant (`s1_dominant = false`). -/
theorem dominance_strict_gt_witness :
    mkCorrEntry gfTie (JSNum.num (1/4)) (JSNum.num (1/4)) ∈
      buildCorrelationData [gfTie] [efTie] ∧
    (mkCorrEntry gfTie (JSNum.num (1/4)) (JSNum.num (1/4))).s1_dominant = false := by
  have hm : mkCorrEntry gfTie (JSNum.num (1/4)) (JSNum.num (1/4)) ∈
      buildCorrelationData [gfTie] [efTie] := by
    with_unfolding_all decide
  exact ⟨hm, (dominance_strict_gt [gfTie] [efTie] _ hm (1/4) (1/4) rfl rfl).2 rfl⟩

/-! ## Generic fold-min/max lemmas (Math.min / Math.max over spreads) -/

theorem foldl_min_le_init (l : List ℚ) (b : ℚ) : l.foldl min b ≤ b := by
  induction l generalizing b with
  | nil => exact le_refl b
  | cons x xs ih => exact le_trans (ih (min b x)) (min_le_left b x)

theorem foldl_min_le_mem {l : List ℚ} {x : ℚ} (hx : x ∈ l) (b : ℚ) : l.foldl min b ≤ x := by
  induction l generalizing b with
  | nil => cases hx
  | cons y ys ih =>
    rcases List.mem_cons.mp hx with rfl | hmem
    · exact le_trans (foldl_min_le_init ys (min b x)) (min_le_right b x)
    · exact ih hmem (min b y)

theorem le_foldl_max_init (l : List ℚ) (b : ℚ) : b ≤ l.foldl max b := by
  induction l generalizing b with
  | nil => exact le_refl b
  | cons x xs ih => exact le_trans (le_max_left b x) (ih (max b x))

theorem le_foldl_max_mem {l : List ℚ} {x : ℚ} (hx : x ∈ l) (b : ℚ) : x ≤ l.foldl max b := by
  induction l generalizing b with
  | nil => cases hx
  | cons y ys ih =>
    rcases List.mem_cons.mp hx with rfl | hmem
    · exact le_trans (le_max_right b x) (le_foldl_max_init ys (max b x))
    · exact ih hmem (max b y)

theorem foldl_max_le {l : List ℚ} {c : ℚ} (h : ∀ x ∈ l, x ≤ c) {b : ℚ} (hb : b ≤ c) :
    l.foldl max b ≤ c := by
  induction l generalizing b with
  | nil => exact hb
  | cons y ys ih =>
    exact ih (fun x hx => h x (List.mem_cons_of_mem y hx))
      (max_le hb (h y (List.mem_cons_self y ys)))

/-- `Math.min(...l)` for the nonempty lists on which the code spreads it
(the `[]` case is unreachable there). -/
def listMin : List ℚ → ℚ
  | [] => 0
  | x :: xs => xs.foldl min x

/-- `Math.max(...l)` for the nonempty lists on which the code spreads it. -/
def listMax : List ℚ → ℚ
  | [] => 0
  | x :: xs => xs.foldl max x

theorem listMin_le {l : List ℚ} {x : ℚ} (hx : x ∈ l) : listMin l ≤ x := by
  cases l with
  | nil => cases hx
  | cons y ys =>
    rcases List.mem_cons.mp hx with rfl | hmem
    · exact foldl_min_le_init ys x
    · exact foldl_min_le_mem hmem y

theorem le_listMax {l : List ℚ} {x : ℚ} (hx : x ∈ l) : x ≤ listMax l := by
  cases l with
  | nil => cases hx
  | cons y ys =>
    rcases List.mem_cons.mp hx with rfl | hmem
    · exact le_foldl_max_init ys x
    · exact le_foldl_max_mem hmem y

theorem listMax_le {l : List ℚ} (hne : l ≠ []) {c : ℚ} (h : ∀ x ∈ l, x ≤ c) :
    listMax l ≤ c := by
  cases l with
  | nil => exact absurd rfl hne
  | cons y ys =>
    exact foldl_max_le (fun x hx => h x (List.mem_cons_of_mem y hx))
      (h y (List.mem_cons_self y ys))

/-! ## Representative-pair selection (`findBestComparisonPair`) -/

/-- Result record of `findBestComparisonPair` (viewer.js:1727-1759).
`twistDifference` is `none` for JS `null`; inside the search it runs over
`WithTop ℚ` so that the initial JS `Infinity` is `⊤`. -/
structure ComparisonPair where
  s1Frame : Option CorrEntry
  s2Frame : Option CorrEntry
  twistDifference : Option (WithTop ℚ)
deriving DecidableEq

/-- Body of the double loop of `findBestComparisonPair` (viewer.js:1745-1755):
replace the running best iff the new `|Δ twist_angle|` is strictly smaller. -/
def bestStep (f1 : CorrEntry) (b : Option CorrEntry × Option CorrEntry × WithTop ℚ)
    (f2 : CorrEntry) : Option CorrEntry × Option CorrEntry × WithTop ℚ :=
  if ((|f1.twist_angle - f2.twist_angle| : ℚ) : WithTop ℚ) < b.2.2 then
    (some f1, some f2, ((|f1.twist_angle - f2.twist_angle| : ℚ) : WithTop ℚ))
  else b

/-- `findBestComparisonPair` (viewer.js:1727-1759): if either subset is
empty, the other side's first element (or `null`) with a `null` difference;
otherwise the exhaustive double loop keeping the strictly smaller
`|Δ twist_angle|`, starting from `(null, null, Infinity)`. -/
def findBestComparisonPair (s1Ex s2Ex : List CorrEntry) : ComparisonPair :=
  if s1Ex.isEmpty || s2Ex.isEmpty then
    { s1Frame := s1Ex.head?, s2Frame := s2Ex.head?, twistDifference := none }
  else
    let best := s1Ex.foldl (fun b f1 => s2Ex.foldl (bestStep f1) b)
      ((none : Option CorrEntry), (none : Option CorrEntry), (⊤ : WithTop ℚ))
    { s1Frame := best.1, s2Frame := best.2.1, twistDifference := some best.2.2 }

/-! ## The twist-angle binner of `createDMABNChart` -/

/-- `const binSize = 5` (viewer.js:1678). -/
def dmabnBinSize : ℚ := 5

/-- `Math.min(...correlationData.map(d => d.twist_angle))`. -/
def minTwist (cd : List CorrEntry) : ℚ := listMin (cd.map (·.twist_angle))

/-- `Math.max(...correlationData.map(d => d.twist_angle))`. -/
def maxTwist (cd : List CorrEntry) : ℚ := listMax (cd.map (·.twist_angle))

/-- `Math.ceil((maxTwist - minTwist) / binSize)` (nonnegative since
`maxTwist ≥ minTwist` on the nonempty inputs the code uses). -/
def numBins (cd : List CorrEntry) : ℕ :=
  (⌈(maxTwist cd - minTwist cd) / dmabnBinSize⌉).toNat

/-- `correlationData.filter(d => d.twist_angle >= binStart && d.twist_angle < binEnd)`. -/
def binPoints (cd : List CorrEntry) (binStart binEnd : ℚ) : List CorrEntry :=
  cd.filter (fun p => decide (binStart ≤ p.twist_angle) && decide (p.twist_angle < binEnd))

/-- One record of `binData` (viewer.js:1683-1722; the `binRange` display
string is presentation-only and omitted). -/
structure DMABNBin where
  binCenter : ℚ
  binStart : ℚ
  binEnd : ℚ
  totalCount : ℕ
  s1DominantCount : ℕ
  s2DominantCount : ℕ
  s1Percentage : ℚ
  s2Percentage : ℚ
  avgPlanarity : ℚ
  exampleS1Frame : Option ℕ
  exampleS2Frame : Option ℕ
  s1TwistAngle : Option ℚ
  s2TwistAngle : Option ℚ
  twistAngleDifference : Option (WithTop ℚ)
  allFrames : List CorrEntry
deriving DecidableEq

/-- The bin record pushed for loop index `i` (only reached when its point
set is non-empty). -/
def mkBin (cd : List CorrEntry) (i : ℕ) : DMABNBin :=
  let binStart := minTwist cd + (i : ℚ) * dmabnBinSize
  let binEnd := binStart + dmabnBinSize
  let pts := binPoints cd binStart binEnd
  let s1Count := (pts.filter (·.s1_dominant)).length
  let s1Examples := pts.filter (·.s1_dominant)
  let s2Examples := pts.filter (fun p => !p.s1_dominant)
  let pair := findBestComparisonPair s1Examples s2Examples
  { binCenter := binStart + dmabnBinSize / 2
    binStart := binStart
    binEnd := binEnd
    totalCount := pts.length
    s1DominantCount := s1Count
    s2DominantCount := pts.length - s1Count
    s1Percentage := (s1Count : ℚ) / (pts.length : ℚ) * 100
    s2Percentage := ((pts.length - s1Count : ℕ) : ℚ) / (pts.length : ℚ) * 100
    avgPlanarity := (pts.map (·.ring_planarity)).sum / (pts.length : ℚ)
    exampleS1Frame := pair.s1Frame.map (·.frame_number)
    exampleS2Frame := pair.s2Frame.map (·.frame_number)
    s1TwistAngle := pair.s1Frame.map (·.twist_angle)
    s2TwistAngle := pair.s2Frame.map (·.twist_angle)
    twistAngleDifference := pair.twistDifference
    allFrames := pts }

/-- The bin-construction loop of `createDMABNChart` (viewer.js:1682-1723):
for each `i < numBins`, keep the bin iff its point set is non-empty. -/
def buildBins (cd : List CorrEntry) : List DMABNBin :=
  (List.range (numBins cd)).filterMap (fun (i : ℕ) =>
    if (binPoints cd (minTwist cd + (i : ℚ) * dmabnBinSize)
        (minTwist cd + (i : ℚ) * dmabnBinSize + dmabnBinSize)).isEmpty then none
    else some (mkBin cd i))

/-! ## Bin-index arithmetic -/

theorem bin_index_iff (m a : ℚ) (_ha : m ≤ a) (i : ℕ) :
    (m + (i : ℚ) * dmabnBinSize ≤ a ∧ a < m + (i : ℚ) * dmabnBinSize + dmabnBinSize) ↔
    (i : ℤ) = ⌊(a - m) / dmabnBinSize⌋ := by
  have h5 : (0 : ℚ) < dmabnBinSize := by norm_num [dmabnBinSize]
  constructor
  · rintro ⟨h1, h2⟩
    symm
    rw [Int.floor_eq_iff]
    constructor
    · push_cast
      rw [le_div_iff h5]
      linarith
    · push_cast
      rw [div_lt_iff h5]
      rw [add_mul, one_mul]
      linarith
  · intro hfe
    have hle : ((i : ℚ)) ≤ (a - m) / dmabnBinSize := by
      have h := Int.floor_le ((a - m) / dmabnBinSize)
      rw [← hfe] at h
      exact_mod_cast h
    have hlt : (a - m) / dmabnBinSize < (i : ℚ) + 1 := by
      have h := Int.lt_floor_add_one ((a - m) / dmabnBinSize)
      rw [← hfe] at h
      exact_mod_cast h
    rw [le_div_iff h5] at hle
    rw [div_lt_iff h5, add_mul, one_mul] at hlt
    exact ⟨by linarith, by linarith⟩

theorem bin_index_exists (m a : ℚ) (ha : m ≤ a) (N : ℕ)
    (hlt : a < m + (N : ℚ) * dmabnBinSize) :
    ∃ i < N, (i : ℤ) = ⌊(a - m) / dmabnBinSize⌋ := by
  have h5 : (0 : ℚ) < dmabnBinSize := by norm_num [dmabnBinSize]
  have hx0 : 0 ≤ (a - m) / dmabnBinSize := div_nonneg (by linarith) (le_of_lt h5)
  have hfl0 : 0 ≤ ⌊(a - m) / dmabnBinSize⌋ := Int.floor_nonneg.mpr hx0
  refine ⟨(⌊(a - m) / dmabnBinSize⌋).toNat, ?_, Int.toNat_of_nonneg hfl0⟩
  have hxN : (a - m) / dmabnBinSize < (N : ℚ) := by
    rw [div_lt_iff h5]
    linarith
  have hN : ⌊(a - m) / dmabnBinSize⌋ < (N : ℤ) := Int.floor_lt.mpr (by exact_mod_cast hxN)
  omega

theorem binPoints_cons_length (x : CorrEntry) (xs : List CorrEntry) (s e : ℚ) :
    (binPoints (x :: xs) s e).length =
      (if s ≤ x.twist_angle ∧ x.twist_angle < e then 1 else 0) + (binPoints xs s e).length := by
  simp only [binPoints, List.filter_cons]
  by_cases h : s ≤ x.twist_angle ∧ x.twist_angle < e
  · simp [h.1, h.2, Nat.add_comm]
  · rcases not_and_or.mp h with h1 | h2
    · simp [h, h1]
    · simp [h, h2]

theorem count_bins_single (m : ℚ) (N : ℕ) (a : ℚ) (ha : m ≤ a) :
    (∑ i in Finset.range N,
      if m + (i : ℚ) * dmabnBinSize ≤ a ∧ a < m + (i : ℚ) * dmabnBinSize + dmabnBinSize
      then 1 else 0) =
    if a < m + (N : ℚ) * dmabnBinSize then (1 : ℕ) else 0 := by
  have h5 : (0 : ℚ) < dmabnBinSize := by norm_num [dmabnBinSize]
  by_cases h : a < m + (N : ℚ) * dmabnBinSize
  · rw [if_pos h]
    obtain ⟨i0, hi0N, hfe⟩ := bin_index_exists m a ha N h
    have hcong : ∀ i ∈ Finset.range N,
        (if m + (i : ℚ) * dmabnBinSize ≤ a ∧ a < m + (i : ℚ) * dmabnBinSize + dmabnBinSize
         then (1 : ℕ) else 0) = if i = i0 then 1 else 0 := by
      intro i _
      refine if_congr ?_ rfl rfl
      rw [bin_index_iff m a ha i, ← hfe]
      exact ⟨fun hz => by exact_mod_cast hz, fun hz => by exact_mod_cast hz⟩
    rw [Finset.sum_congr rfl hcong, Finset.sum_ite_eq' (Finset.range N) i0 (fun _ => (1 : ℕ)),
      if_pos (Finset.mem_range.mpr hi0N)]
  · rw [if_neg h]
    apply Finset.sum_eq_zero
    intro i hi
    rw [if_neg]
    rintro ⟨-, h2⟩
    have hiN : i + 1 ≤ N := Finset.mem_range.mp hi
    have hcast : (i : ℚ) + 1 ≤ (N : ℚ) := by exact_mod_cast hiN
    have hmul : ((i : ℚ) + 1) * dmabnBinSize ≤ (N : ℚ) * dmabnBinSize :=
      mul_le_mul_of_nonneg_right hcast (le_of_lt h5)
    rw [add_mul, one_mul] at hmul
    exact h (by linarith)

theorem sum_interval_counts (m : ℚ) (N : ℕ) :
    ∀ l : List CorrEntry, (∀ p ∈ l, m ≤ p.twist_angle) →
      (∑ i in Finset.range N,
        (binPoints l (m + (i : ℚ) * dmabnBinSize)
          (m + (i : ℚ) * dmabnBinSize + dmabnBinSize)).length) =
      (l.filter (fun p => decide (p.twist_angle < m + (N : ℚ) * dmabnBinSize))).length := by
  intro l
  induction l with
  | nil => intro; simp [binPoints]
  | cons x xs ih =>
    intro hm
    have hx : m ≤ x.twist_angle := hm x (List.mem_cons_self x xs)
    have hxs : ∀ p ∈ xs, m ≤ p.twist_angle := fun p hp => hm p (List.mem_cons_of_mem x hp)
    have hL : (∑ i in Finset.range N,
        (binPoints (x :: xs) (m + (i : ℚ) * dmabnBinSize)
          (m + (i : ℚ) * dmabnBinSize + dmabnBinSize)).length) =
        (∑ i in Finset.range N,
          ((if m + (i : ℚ) * dmabnBinSize ≤ x.twist_angle ∧
              x.twist_angle < m + (i : ℚ) * dmabnBinSize + dmabnBinSize then 1 else 0) +
            (binPoints xs (m + (i : ℚ) * dmabnBinSize)
              (m + (i : ℚ) * dmabnBinSize + dmabnBinSize)).length)) :=
      Finset.sum_congr rfl (fun i _ => binPoints_cons_length x xs _ _)
    rw [hL, Finset.sum_add_distrib, count_bins_single m N x.twist_angle hx, ih hxs,
      List.filter_cons]
    by_cases hc : x.twist_angle < m + (N : ℚ) * dmabnBinSize
    · simp [hc, Nat.add_comm]
    · simp [hc]

theorem list_range_map_sum (N : ℕ) (f : ℕ → ℕ) :
    ((List.range N).map f).sum = ∑ i in Finset.range N, f i := by
  induction N with
  | zero => simp
  | succ n ih =>
    rw [List.range_succ, List.map_append, List.sum_append, Finset.sum_range_succ, ih]
    simp

theorem buildBins_map_total_sum (cd : List CorrEntry) :
    ((buildBins cd).map (·.totalCount)).sum =
    ∑ i in Finset.range (numBins cd),
      (binPoints cd (minTwist cd + (i : ℚ) * dmabnBinSize)
        (minTwist cd + (i : ℚ) * dmabnBinSize + dmabnBinSize)).length := by
  rw [buildBins, ← list_range_map_sum]
  have hgen : ∀ idxs : List ℕ,
      ((idxs.filterMap (fun (i : ℕ) =>
        if (binPoints cd (minTwist cd + (i : ℚ) * dmabnBinSize)
            (minTwist cd + (i : ℚ) * dmabnBinSize + dmabnBinSize)).isEmpty then none
        else some (mkBin cd i))).map (·.totalCount)).sum =
      (idxs.map (fun (i : ℕ) =>
        (binPoints cd (minTwist cd + (i : ℚ) * dmabnBinSize)
          (minTwist cd + (i : ℚ) * dmabnBinSize + dmabnBinSize)).length)).sum := by
    intro idxs
    induction idxs with
    | nil => rfl
    | cons j js ih =>
      rw [List.filterMap_cons]
      by_cases hj : (binPoints cd (minTwist cd + (j : ℚ) * dmabnBinSize)
          (minTwist cd + (j : ℚ) * dmabnBinSize + dmabnBinSize)).isEmpty
      · rw [if_pos hj]
        have hz : (binPoints cd (minTwist cd + (j : ℚ) * dmabnBinSize)
            (minTwist cd + (j : ℚ) * dmabnBinSize + dmabnBinSize)).length = 0 := by
          rw [List.isEmpty_iff] at hj
          rw [hj]
          rfl
        rw [List.map_cons, List.sum_cons, hz, ih]
        omega
      · rw [if_neg hj, List.map_cons, List.sum_cons, List.map_cons, List.sum_cons, ih]
        rfl
  exact hgen (List.range (numBins cd))

theorem mem_binPoints {cd : List CorrEntry} {s e : ℚ} {p : CorrEntry} :
    p ∈ binPoints cd s e ↔ p ∈ cd ∧ s ≤ p.twist_angle ∧ p.twist_angle < e := by
  simp [binPoints, List.mem_filter, Bool.and_eq_true, decide_eq_true_eq, and_assoc]

theorem mem_buildBins {cd : List CorrEntry} {B : DMABNBin} :
    B ∈ buildBins cd ↔ ∃ i < numBins cd,
      binPoints cd (minTwist cd + (i : ℚ) * dmabnBinSize)
        (minTwist cd + (i : ℚ) * dmabnBinSize + dmabnBinSize) ≠ [] ∧ B = mkBin cd i := by
  rw [buildBins, List.mem_filterMap]
  constructor
  · rintro ⟨i, hi, hf⟩
    by_cases hj : (binPoints cd (minTwist cd + (i : ℚ) * dmabnBinSize)
        (minTwist cd + (i : ℚ) * dmabnBinSize + dmabnBinSize)).isEmpty
    · rw [if_pos hj] at hf
      cases hf
    · rw [if_neg hj] at hf
      refine ⟨i, List.mem_range.mp hi, ?_, (Option.some.inj hf).symm⟩
      intro hnil
      exact hj (by rw [hnil]; rfl)
  · rintro ⟨i, hiN, hne, rfl⟩
    refine ⟨i, List.mem_range.mpr hiN, ?_⟩
    rw [if_neg ?_]
    intro hj
    exact hne (List.isEmpty_iff.mp hj)

theorem minTwist_le {cd : List CorrEntry} {p : CorrEntry} (hp : p ∈ cd) :
    minTwist cd ≤ p.twist_angle :=
  listMin_le (List.mem_map_of_mem _ hp)

theorem mkBin_allFrames (cd : List CorrEntry) (i : ℕ) :
    (mkBin cd i).allFrames = binPoints cd (minTwist cd + (i : ℚ) * dmabnBinSize)
      (minTwist cd + (i : ℚ) * dmabnBinSize + dmabnBinSize) := rfl

/-- C2 (amended): a correlated frame is assigned to exactly one bin iff its
descriptor lies strictly below `minTwist + numBins·binSize`; the sum of the
kept bins' totals equals the number of such frames.  A frame whose
descriptor is at or above that bound — which happens to the maximum exactly
when `maxTwist − minTwist` is an integer multiple of the bin width
(including the all-equal case `numBins = 0`) — is dropped, not clamped.
Empty bins are omitted, and every kept bin is non-empty with
`totalCount = |allFrames|`. -/
theorem binning_coverage (cd : List CorrEntry) :
    (∀ p ∈ cd, p.twist_angle < minTwist cd + (numBins cd : ℚ) * dmabnBinSize →
      ∃! B, B ∈ buildBins cd ∧ p ∈ B.allFrames) ∧
    ((buildBins cd).map (·.totalCount)).sum =
      (cd.filter (fun p =>
        decide (p.twist_angle < minTwist cd + (numBins cd : ℚ) * dmabnBinSize))).length ∧
    (∀ p ∈ cd, minTwist cd + (numBins cd : ℚ) * dmabnBinSize ≤ p.twist_angle →
      ∀ B ∈ buildBins cd, p ∉ B.allFrames) ∧
    (∀ B ∈ buildBins cd, B.allFrames ≠ [] ∧ B.totalCount = B.allFrames.length) := by
  have h5 : (0 : ℚ) < dmabnBinSize := by norm_num [dmabnBinSize]
  refine ⟨?_, ?_, ?_, ?_⟩
  · intro p hp hplt
    have hm := minTwist_le hp
    obtain ⟨i0, hi0N, hfe⟩ :=
      bin_index_exists (minTwist cd) p.twist_angle hm (numBins cd) hplt
    have hcond := (bin_index_iff (minTwist cd) p.twist_angle hm i0).mpr hfe
    have hpin : p ∈ binPoints cd (minTwist cd + (i0 : ℚ) * dmabnBinSize)
        (minTwist cd + (i0 : ℚ) * dmabnBinSize + dmabnBinSize) :=
      mem_binPoints.mpr ⟨hp, hcond.1, hcond.2⟩
    refine ⟨mkBin cd i0,
      ⟨mem_buildBins.mpr ⟨i0, hi0N, List.ne_nil_of_mem hpin, rfl⟩,
        by rw [mkBin_allFrames]; exact hpin⟩, ?_⟩
    rintro B' ⟨hB', hp'⟩
    obtain ⟨i', hi'N, hne', rfl⟩ := mem_buildBins.mp hB'
    rw [mkBin_allFrames] at hp'
    have hcond' := (mem_binPoints.mp hp').2
    have hfe' := (bin_index_iff (minTwist cd) p.twist_angle hm i').mp hcond'
    have hii : i' = i0 := by
      have : (i' : ℤ) = (i0 : ℤ) := by rw [hfe', ← hfe]
      exact_mod_cast this
    rw [hii]
  · rw [buildBins_map_total_sum,
      sum_interval_counts (minTwist cd) (numBins cd) cd (fun p hp => minTwist_le hp)]
  · intro p hp hge B hB hpB
    obtain ⟨i, hiN, hne, rfl⟩ := mem_buildBins.mp hB
    rw [mkBin_allFrames] at hpB
    have hcond := (mem_binPoints.mp hpB).2
    have hcast : (i : ℚ) + 1 ≤ (numBins cd : ℚ) := by exact_mod_cast hiN
    have hmul : ((i : ℚ) + 1) * dmabnBinSize ≤ (numBins cd : ℚ) * dmabnBinSize :=
      mul_le_mul_of_nonneg_right hcast (le_of_lt h5)
    rw [add_mul, one_mul] at hmul
    have := hcond.2
    linarith
  · intro B hB
    obtain ⟨i, hiN, hne, rfl⟩ := mem_buildBins.mp hB
    exact ⟨by rw [mkBin_allFrames]; exact hne, rfl⟩

/-- Correlated frame at the minimum descriptor (twist 0°). -/
def ceA : CorrEntry :=
  { twist_angle := 0, ring_planarity := 1, s1_oscillator := JSNum.num 1
    s2_oscillator := JSNum.num 0, time_ps := 0, time_fs := 0, frame_number := 1
    s1_dominant := true }

/-- Correlated frame at the maximum descriptor (twist 10°, an exact multiple
of the 5° bin width above the minimum). -/
def ceB : CorrEntry :=
  { twist_angle := 10, ring_planarity := 1, s1_oscillator := JSNum.num 0
    s2_oscillator := JSNum.num 1, time_ps := 0, time_fs := 0, frame_number := 2
    s1_dominant := false }

/-- Correlated frame at twist 7° (maximum NOT on a bin boundary). -/
def ceC : CorrEntry :=
  { twist_angle := 7, ring_planarity := 1, s1_oscillator := JSNum.num 0
    s2_oscillator := JSNum.num 1, time_ps := 0, time_fs := 0, frame_number := 3
    s1_dominant := false }

/-- Correlation data whose maximum descriptor falls on a bin boundary. -/
def cdBoundary : List CorrEntry := [ceA, ceB]

/-- Correlation data whose maximum descriptor is inside the last bin. -/
def cdInterior : List CorrEntry := [ceA, ceC]

/-- Counterexample to C2 as stated: with descriptors 0° and 10° the two bins
are `[0,5)` and `[5,10)`; the frame at the maximum (10°) satisfies neither
half-open filter, so it lands in NO bin and the bin totals sum to 1 while
there are 2 valid correlated frames. -/
theorem binning_drop_counterexample :
    cdBoundary.length = 2 ∧
    ((buildBins cdBoundary).map (·.totalCount)).sum = 1 ∧
    ceB.twist_angle = maxTwist cdBoundary ∧
    ∀ B ∈ buildBins cdBoundary, ceB ∉ B.allFrames := by
  with_unfolding_all decide

/-- Witness for the amended C2: a frame strictly below the last bin's end is
assigned to exactly one bin. -/
theorem binning_coverage_witness :
    (ceA ∈ cdInterior ∧
      ceA.twist_angle < minTwist cdInterior + (numBins cdInterior : ℚ) * dmabnBinSize) ∧
    (∃! B, B ∈ buildBins cdInterior ∧ ceA ∈ B.allFrames) := by
  refine ⟨by with_unfolding_all decide, ?_⟩
  exact (binning_coverage cdInterior).1 ceA (by with_unfolding_all decide)
    (by with_unfolding_all decide)

/-! ## Minimality of the representative-pair search -/

theorem bestStep_le (f1 : CorrEntry) (b : Option CorrEntry × Option CorrEntry × WithTop ℚ)
    (f2 : CorrEntry) : (bestStep f1 b f2).2.2 ≤ b.2.2 := by
  unfold bestStep
  split
  · exact le_of_lt (by assumption)
  · exact le_refl _

theorem bestStep_le_diff (f1 : CorrEntry) (b : Option CorrEntry × Option CorrEntry × WithTop ℚ)
    (f2 : CorrEntry) :
    (bestStep f1 b f2).2.2 ≤ ((|f1.twist_angle - f2.twist_angle| : ℚ) : WithTop ℚ) := by
  unfold bestStep
  split
  · exact le_refl _
  · exact le_of_not_lt (by assumption)

theorem inner_foldl_le_init (f1 : CorrEntry) (l : List CorrEntry) :
    ∀ b, (l.foldl (bestStep f1) b).2.2 ≤ b.2.2 := by
  induction l with
  | nil => intro b; exact le_refl _
  | cons y ys ih =>
    intro b
    exact le_trans (ih (bestStep f1 b y)) (bestStep_le f1 b y)

theorem inner_foldl_le_mem (f1 : CorrEntry) (l : List CorrEntry) :
    ∀ b, ∀ f2 ∈ l,
      (l.foldl (bestStep f1) b).2.2 ≤ ((|f1.twist_angle - f2.twist_angle| : ℚ) : WithTop ℚ) := by
  induction l with
  | nil => intro b f2 h; cases h
  | cons y ys ih =>
    intro b f2 hf2
    rcases List.mem_cons.mp hf2 with rfl | hmem
    · exact le_trans (inner_foldl_le_init f1 ys (bestStep f1 b f2)) (bestStep_le_diff f1 b f2)
    · exact ih (bestStep f1 b y) f2 hmem

theorem inner_foldl_achieved (f1 : CorrEntry) (l : List CorrEntry) :
    ∀ b, l.foldl (bestStep f1) b = b ∨
      ∃ f2 ∈ l, l.foldl (bestStep f1) b =
        (some f1, some f2, ((|f1.twist_angle - f2.twist_angle| : ℚ) : WithTop ℚ)) := by
  induction l with
  | nil => intro b; exact Or.inl rfl
  | cons y ys ih =>
    intro b
    rcases ih (bestStep f1 b y) with heq | ⟨f2, hf2, heq⟩
    · rw [List.foldl_cons, heq]
      unfold bestStep
      split
    
      · exact Or.inr ⟨y, List.mem_cons_self y ys, rfl⟩
      · exact Or.inl rfl
    · exact Or.inr ⟨f2, List.mem_cons_of_mem y hf2, by rw [List.foldl_cons, heq]⟩

theorem outer_foldl_le_init (l1 l2 : List CorrEntry) :
    ∀ b, (l1.foldl (fun b f1 => l2.foldl (bestStep f1) b) b).2.2 ≤ b.2.2 := by
  induction l1 with
  | nil => intro b; exact le_refl _
  | cons y ys ih =>
    intro b
    exact le_trans (ih (l2.foldl (bestStep y) b)) (inner_foldl_le_init y l2 b)

theorem outer_foldl_le_mem (l1 l2 : List CorrEntry) :
    ∀ b, ∀ f1 ∈ l1, ∀ f2 ∈ l2,
      (l1.foldl (fun b f1 => l2.foldl (bestStep f1) b) b).2.2 ≤
        ((|f1.twist_angle - f2.twist_angle| : ℚ) : WithTop ℚ) := by
  induction l1 with
  | nil => intro b f1 h; cases h
  | cons y ys ih =>
    intro b f1 hf1 f2 hf2
    rcases List.mem_cons.mp hf1 with rfl | hmem
    · exact le_trans (outer_foldl_le_init ys l2 (l2.foldl (bestStep f1) b))
        (inner_foldl_le_mem f1 l2 b f2 hf2)
    · exact ih (l2.foldl (bestStep y) b) f1 hmem f2 hf2

theorem outer_foldl_achieved (l1 l2 : List CorrEntry) :
    ∀ b, l1.foldl (fun b f1 => l2.foldl (bestStep f1) b) b = b ∨
      ∃ f1 ∈ l1, ∃ f2 ∈ l2,
        l1.foldl (fun b f1 => l2.foldl (bestStep f1) b) b =
          (some f1, some f2, ((|f1.twist_angle - f2.twist_angle| : ℚ) : WithTop ℚ)) := by
  induction l1 with
  | nil => intro b; exact Or.inl rfl
  | cons y ys ih =>
    intro b
    rcases ih (l2.foldl (bestStep y) b) with heq | ⟨f1, hf1, f2, hf2, heq⟩
    · rw [List.foldl_cons, heq]
      rcases inner_foldl_achieved y l2 b with heq2 | ⟨f2, hf2, heq2⟩
      · exact Or.inl heq2
      · exact Or.inr ⟨y, List.mem_cons_self y ys, f2, hf2, heq2⟩
    · exact Or.inr ⟨f1, List.mem_cons_of_mem y hf1, f2, hf2, by rw [List.foldl_cons, heq]⟩

/-- C6: with both dominance subsets non-empty, `findBestComparisonPair`
returns an actual cross pair achieving a twist-angle gap that is ≤ the gap
of every other cross pair; with either subset empty, that side's
representative and the reported gap are null. -/
theorem bestPair_minimal (s1Ex s2Ex : List CorrEntry) :
    ((s1Ex = [] ∨ s2Ex = []) →
      (findBestComparisonPair s1Ex s2Ex).twistDifference = none ∧
      (s1Ex = [] → (findBestComparisonPair s1Ex s2Ex).s1Frame = none) ∧
      (s2Ex = [] → (findBestComparisonPair s1Ex s2Ex).s2Frame = none)) ∧
    (s1Ex ≠ [] → s2Ex ≠ [] →
      ∃ f1 ∈ s1Ex, ∃ f2 ∈ s2Ex,
        findBestComparisonPair s1Ex s2Ex =
          { s1Frame := some f1, s2Frame := some f2,
            twistDifference := some ((|f1.twist_angle - f2.twist_angle| : ℚ) : WithTop ℚ) } ∧
        ∀ g1 ∈ s1Ex, ∀ g2 ∈ s2Ex,
          |f1.twist_angle - f2.twist_angle| ≤ |g1.twist_angle - g2.twist_angle|) := by
  constructor
  · intro hemp
    have hcond : (s1Ex.isEmpty || s2Ex.isEmpty) = true := by
      rcases hemp with h | h <;> simp [h]
    rw [findBestComparisonPair, if_pos hcond]
    refine ⟨rfl, ?_, ?_⟩ <;> intro h <;> simp [h]
  · intro h1 h2
    have hcond : ¬ (s1Ex.isEmpty || s2Ex.isEmpty) = true := by
      simp [List.isEmpty_iff, h1, h2]
    rw [findBestComparisonPair, if_neg hcond]
    obtain ⟨a1, hs1⟩ := List.exists_mem_of_ne_nil s1Ex h1
    obtain ⟨a2, hs2⟩ := List.exists_mem_of_ne_nil s2Ex h2
    set b0 : Option CorrEntry × Option CorrEntry × WithTop ℚ := (none, none, ⊤) with hb0
    rcases outer_foldl_achieved s1Ex s2Ex b0 with heq | ⟨f1, hf1, f2, hf2, heq⟩
    · exfalso
      have hlt := outer_foldl_le_mem s1Ex s2Ex b0 a1 hs1 a2 hs2
      rw [heq] at hlt
      have htop : (⊤ : WithTop ℚ) ≤
          ((|a1.twist_angle - a2.twist_angle| : ℚ) : WithTop ℚ) := hlt
      exact WithTop.coe_ne_top (top_le_iff.mp htop)
    · refine ⟨f1, hf1, f2, hf2, ?_, ?_⟩
      · simp only [heq]
      · intro g1 hg1 g2 hg2
        have hle := outer_foldl_le_mem s1Ex s2Ex b0 g1 hg1 g2 hg2
        rw [heq] at hle
        exact WithTop.coe_le_coe.mp hle

/-- Witness for C6: on concrete one-element subsets the returned pair is
the only cross pair, with its exact gap and both frames present. -/
theorem bestPair_minimal_witness :
    ([ceA] ≠ ([] : List CorrEntry)) ∧
    (∃ f1 ∈ [ceA], ∃ f2 ∈ [ceC],
      findBestComparisonPair [ceA] [ceC] =
        { s1Frame := some f1, s2Frame := some f2,
          twistDifference := some ((|f1.twist_angle - f2.twist_angle| : ℚ) : WithTop ℚ) } ∧
      ∀ g1 ∈ [ceA], ∀ g2 ∈ [ceC],
        |f1.twist_angle - f2.twist_angle| ≤ |g1.twist_angle - g2.twist_angle|) :=
  ⟨List.cons_ne_nil _ _,
    (bestPair_minimal [ceA] [ceC]).2 (List.cons_ne_nil _ _) (List.cons_ne_nil _ _)⟩

/-! ## Spectral synthesis (`MolecularCharts.generateSpectrum`) -/

/-- `generateEnergyRange(min, max, steps)` (viewer.js:2957-2966):
`steps` points `min + i * (max − min)/(steps − 1)`. -/
def generateEnergyRange (mn mx : ℚ) (steps : ℕ) : List ℚ :=
  (List.range steps).map (fun (i : ℕ) => mn + (i : ℚ) * ((mx - mn) / ((steps : ℚ) - 1)))

/-- `const width = 0.15` (viewer.js:2970). -/
def gaussWidth : ℚ := 3/20

/-- `MolecularCharts.generateSpectrum` (viewer.js:2968-2993), with
`Math.exp` abstracted as `e : ℚ → ℚ`: a transition contributes
`osc * exp(−(E − energy)² / (2·width²))` iff its oscillator strength is
strictly positive. -/
def generateSpectrum (e : ℚ → ℚ) (energyRange : List ℚ) (exc : ExcSample) : List ℚ :=
  energyRange.map (fun energy =>
    (if exc.s1_oscillator > 0 then
      exc.s1_oscillator * e (-(energy - exc.s1_energy) ^ 2 / (2 * gaussWidth * gaussWidth))
     else 0) +
    (if exc.s2_oscillator > 0 then
      exc.s2_oscillator * e (-(energy - exc.s2_energy) ^ 2 / (2 * gaussWidth * gaussWidth))
     else 0))

/-- Modelled from the spec's formula (§4.3): `intensity(E) = Σ_k
oscillator_k · exp(−(E−energy_k)²/(2·width²))` over the transition list,
where a transition with non-positive oscillator strength contributes
exactly zero. -/
def specIntensity (e : ℚ → ℚ) (transitions : List (ℚ × ℚ)) (width : ℚ) (energy : ℚ) : ℚ :=
  (transitions.map (fun tr =>
    if tr.2 > 0 then tr.2 * e (-(energy - tr.1) ^ 2 / (2 * width * width)) else 0)).sum

/-- C8: the synthesized spectrum agrees pointwise with the spec's
sum-of-gated-Gaussians formula over the two transitions; in particular
non-positive oscillator strengths contribute zero (all-zero output when
both are non-positive) and a single active transition yields the
closed-form single Gaussian pointwise. -/
theorem spectrum_formula (e : ℚ → ℚ) (axis : List ℚ) (exc : ExcSample) :
    generateSpectrum e axis exc =
      axis.map (specIntensity e
        [(exc.s1_energy, exc.s1_oscillator), (exc.s2_energy, exc.s2_oscillator)] gaussWidth) ∧
    (exc.s1_oscillator ≤ 0 → exc.s2_oscillator ≤ 0 →
      generateSpectrum e axis exc = axis.map (fun _ => 0)) ∧
    (0 < exc.s1_oscillator → exc.s2_oscillator ≤ 0 →
      generateSpectrum e axis exc = axis.map (fun energy =>
        exc.s1_oscillator *
          e (-(energy - exc.s1_energy) ^ 2 / (2 * gaussWidth * gaussWidth)))) := by
  refine ⟨?_, ?_, ?_⟩
  · apply List.map_congr_left
    intro energy _
    simp [generateSpectrum, specIntensity]
  · intro hle1 hle2
    apply List.map_congr_left
    intro energy _
    rw [if_neg (not_lt.mpr hle1), if_neg (not_lt.mpr hle2), add_zero]
  · intro hpos hle2
    apply List.map_congr_left
    intro energy _
    rw [if_pos hpos, if_neg (not_lt.mpr hle2), add_zero]

/-- A sample with one active transition (`s1`) and a zero-strength `s2`. -/
def exSZ : ExcSample :=
  { time_fs := 0, time_ps := 0, s1_energy := 4, s1_oscillator := 1/2
    s2_energy := 5, s2_oscillator := 0, energy_gap := 1, interpolated := false }

/-- Witness for C8 at a concrete input: one active and one inactive
transition over a two-point axis, with `e` the constant-one function. -/
theorem spectrum_formula_witness :
    (0 < exSZ.s1_oscillator ∧ exSZ.s2_oscillator ≤ 0) ∧
    generateSpectrum (fun _ => 1) [3, 4] exSZ = [3, 4].map (fun energy =>
      exSZ.s1_oscillator *
        (fun _ => (1 : ℚ)) (-(energy - exSZ.s1_energy) ^ 2 / (2 * gaussWidth * gaussWidth))) := by
  refine ⟨by with_unfolding_all decide, ?_⟩
  exact (spectrum_formula (fun _ => 1) [3, 4] exSZ).2.2
    (by with_unfolding_all decide) (by with_unfolding_all decide)

/-! ## Display ceiling (`MolecularCharts.calculateGlobalYAxisMax`) -/

/-- `q || 0` on a finite JS number: only `0` (and `NaN`, absent here) is
falsy, so this is the identity on ℚ. -/
def jsOr0 (q : ℚ) : ℚ := if q = 0 then 0 else q

theorem jsOr0_eq (q : ℚ) : jsOr0 q = q := by
  unfold jsOr0
  split
  · rename_i h
    rw [h]
  · rfl

/-- `Math.max(acc, ...l)` (equal to `acc` when the spread list is empty). -/
def mathMaxAccList (acc : ℚ) (l : List ℚ) : ℚ := l.foldl max acc

/-- The `maxOscillator` accumulator: `Math.max(acc, s1 || 0, s2 || 0)` over
every sample, from 0. -/
def maxOscillatorOf (data : List ExcSample) : ℚ :=
  data.foldl
    (fun acc exc => max acc (max (jsOr0 exc.s1_oscillator) (jsOr0 exc.s2_oscillator))) 0

/-- The `maxSpectrum` accumulator: `Math.max(acc, ...spectrum)` over every
sample's synthesized spectrum on the 1000-point 2–7 eV grid, from 0. -/
def maxSpectrumOf (e : ℚ → ℚ) (data : List ExcSample) : ℚ :=
  data.foldl
    (fun acc exc =>
      mathMaxAccList acc (generateSpectrum e (generateEnergyRange 2 7 1000) exc)) 0

/-- `dataMax = Math.max(maxOscillator, maxSpectrum)`. -/
def dataMaxOf (e : ℚ → ℚ) (data : List ExcSample) : ℚ :=
  max (maxOscillatorOf data) (maxSpectrumOf e data)

/-- `MolecularCharts.calculateGlobalYAxisMax` (viewer.js:2294-2334), with
`Math.exp` abstracted as `e`: scan every sample for the largest oscillator
value (`|| 0` coerced) and the largest synthesized-spectrum value over the
1000-point 2–7 eV grid, pad by 20 %, then snap up through the fixed
breakpoints, falling back to `Math.ceil`. -/
def calculateGlobalYAxisMax (e : ℚ → ℚ) (data : List ExcSample) : ℚ :=
  if data = [] then 2
  else
    if dataMaxOf e data * (12/10) ≤ 1/10 then 1/10
    else if dataMaxOf e data * (12/10) ≤ 5/10 then 5/10
    else if dataMaxOf e data * (12/10) ≤ 1 then 1
    else if dataMaxOf e data * (12/10) ≤ 2 then 2
    else if dataMaxOf e data * (12/10) ≤ 5 then 5
    else ((⌈dataMaxOf e data * (12/10)⌉ : ℤ) : ℚ)

/-- Modelled from the spec (§4.3): the peak of the spectrum synthesized at
one sample's energies over the display grid. -/
def observedPeak (e : ℚ → ℚ) (exc : ExcSample) : ℚ :=
  listMax (generateSpectrum e (generateEnergyRange 2 7 1000) exc)

/-- Modelled from the spec (§4.3): every "observed" value of a series — each
single oscillator value and each sample's synthesized-spectrum peak. -/
def observedValues (e : ℚ → ℚ) (data : List ExcSample) : List ℚ :=
  data.flatMap (fun s => [s.s1_oscillator, s.s2_oscillator, observedPeak e s])

/-- Modelled from the spec (§4.3): the true observed maximum of a series. -/
def trueObservedMax (e : ℚ → ℚ) (data : List ExcSample) : ℚ :=
  listMax (observedValues e data)

/-! Generic bounds for left folds with a monotone step. -/

theorem foldl_step_le {α : Type} (step : ℚ → α → ℚ) (l : List α) (c : ℚ)
    (hstep : ∀ a y, y ∈ l → a ≤ c → step a y ≤ c) :
    ∀ b, b ≤ c → l.foldl step b ≤ c := by
  induction l with
  | nil => intro b hb; exact hb
  | cons y ys ih =>
    intro b hb
    exact ih (fun a z hz ha => hstep a z (List.mem_cons_of_mem y hz) ha) _
      (hstep b y (List.mem_cons_self y ys) hb)

theorem le_foldl_step_init {α : Type} (step : ℚ → α → ℚ) (l : List α)
    (hmono : ∀ a y, a ≤ step a y) : ∀ b, b ≤ l.foldl step b := by
  induction l with
  | nil => intro b; exact le_refl b
  | cons y ys ih =>
    intro b
    exact le_trans (hmono b y) (ih (step b y))

theorem le_foldl_step_at {α : Type} (step : ℚ → α → ℚ) (l : List α)
    (hmono : ∀ a y, a ≤ step a y) (y : α) (hy : y ∈ l) (c : ℚ)
    (hc : ∀ a, c ≤ step a y) : ∀ b, c ≤ l.foldl step b := by
  induction l with
  | nil => cases hy
  | cons z zs ih =>
    intro b
    rcases List.mem_cons.mp hy with rfl | hmem
    · exact le_trans (hc b) (le_foldl_step_init step zs hmono (step b y))
    · exact ih hmem (step b z)

theorem observedValues_ne_nil (e : ℚ → ℚ) {data : List ExcSample} (hne : data ≠ []) :
    observedValues e data ≠ [] := by
  cases data with
  | nil => exact absurd rfl hne
  | cons s rest => simp [observedValues]

theorem spectrum_ne_nil (e : ℚ → ℚ) (exc : ExcSample) :
    generateSpectrum e (generateEnergyRange 2 7 1000) exc ≠ [] := by
  simp [generateSpectrum, generateEnergyRange, List.range_eq_nil]

theorem s1_le_maxOscillator {data : List ExcSample} {s : ExcSample} (hs : s ∈ data) :
    s.s1_oscillator ≤ maxOscillatorOf data := by
  refine le_foldl_step_at _ data (fun a y => le_max_left _ _) s hs _ ?_ 0
  intro a
  rw [jsOr0_eq, jsOr0_eq]
  exact le_trans (le_max_left _ _) (le_max_right _ _)

theorem s2_le_maxOscillator {data : List ExcSample} {s : ExcSample} (hs : s ∈ data) :
    s.s2_oscillator ≤ maxOscillatorOf data := by
  refine le_foldl_step_at _ data (fun a y => le_max_left _ _) s hs _ ?_ 0
  intro a
  rw [jsOr0_eq, jsOr0_eq]
  exact le_trans (le_max_right _ _) (le_max_right _ _)

theorem spec_el_le_maxSpectrum {e : ℚ → ℚ} {data : List ExcSample} {s : ExcSample} {z : ℚ}
    (hs : s ∈ data) (hz : z ∈ generateSpectrum e (generateEnergyRange 2 7 1000) s) :
    z ≤ maxSpectrumOf e data := by
  refine le_foldl_step_at _ data (fun a y => le_foldl_max_init _ _) s hs z ?_ 0
  intro a
  exact le_foldl_max_mem hz a

theorem peak_le_maxSpectrum {e : ℚ → ℚ} {data : List ExcSample} {s : ExcSample}
    (hs : s ∈ data) : observedPeak e s ≤ maxSpectrumOf e data :=
  listMax_le (spectrum_ne_nil e s) (fun z hz => spec_el_le_maxSpectrum hs hz)

theorem trueMax_le_dataMax (e : ℚ → ℚ) {data : List ExcSample} (hne : data ≠ []) :
    trueObservedMax e data ≤ dataMaxOf e data := by
  apply listMax_le (observedValues_ne_nil e hne)
  intro x hx
  obtain ⟨s, hs, hxs⟩ := List.mem_flatMap.mp hx
  simp only [List.mem_cons, List.not_mem_nil, or_false] at hxs
  rcases hxs with h | h | h
  · rw [h]
    exact le_trans (s1_le_maxOscillator hs) (le_max_left _ _)
  · rw [h]
    exact le_trans (s2_le_maxOscillator hs) (le_max_left _ _)
  · rw [h]
    exact le_trans (peak_le_maxSpectrum hs) (le_max_right _ _)

theorem s1_le_trueMax {e : ℚ → ℚ} {data : List ExcSample} {s : ExcSample} (hs : s ∈ data) :
    s.s1_oscillator ≤ trueObservedMax e data :=
  le_listMax (List.mem_flatMap.mpr ⟨s, hs, by simp⟩)

theorem s2_le_trueMax {e : ℚ → ℚ} {data : List ExcSample} {s : ExcSample} (hs : s ∈ data) :
    s.s2_oscillator ≤ trueObservedMax e data :=
  le_listMax (List.mem_flatMap.mpr ⟨s, hs, by simp⟩)

theorem peak_le_trueMax {e : ℚ → ℚ} {data : List ExcSample} {s : ExcSample} (hs : s ∈ data) :
    observedPeak e s ≤ trueObservedMax e data :=
  le_listMax (List.mem_flatMap.mpr ⟨s, hs, by simp⟩)

theorem dataMax_le_max_zero_trueMax (e : ℚ → ℚ) (data : List ExcSample) :
    dataMaxOf e data ≤ max 0 (trueObservedMax e data) := by
  apply max_le
  · refine foldl_step_le _ data _ ?_ 0 (le_max_left 0 _)
    intro a y hy ha
    apply max_le ha
    rw [jsOr0_eq, jsOr0_eq]
    exact max_le (le_trans (s1_le_trueMax hy) (le_max_right 0 _))
      (le_trans (s2_le_trueMax hy) (le_max_right 0 _))
  · refine foldl_step_le _ data _ ?_ 0 (le_max_left 0 _)
    intro a y hy ha
    refine foldl_max_le ?_ ha
    intro z hz
    exact le_trans (le_trans (le_listMax hz) (peak_le_trueMax hy)) (le_max_right 0 _)

/-- C5: for a non-empty loaded series the cached display ceiling is ≥ 1.2
times the true observed maximum (largest single oscillator value or
synthesized-spectrum peak over all samples) and is one of the fixed
breakpoints `{0.1, 0.5, 1, 2, 5, ceil(1.2·max)}`. -/
theorem yAxisMax_spec (e : ℚ → ℚ) (data : List ExcSample) (hne : data ≠ []) :
    (12/10) * trueObservedMax e data ≤ calculateGlobalYAxisMax e data ∧
    calculateGlobalYAxisMax e data ∈
      ({1/10, 5/10, 1, 2, 5, ((⌈(12/10) * trueObservedMax e data⌉ : ℤ) : ℚ)} : Set ℚ) := by
  have hMD := trueMax_le_dataMax e hne
  have hpad : (12/10) * trueObservedMax e data ≤ dataMaxOf e data * (12/10) := by
    rw [mul_comm]
    exact mul_le_mul_of_nonneg_right hMD (by norm_num)
  rw [calculateGlobalYAxisMax, if_neg hne]
  by_cases h1 : dataMaxOf e data * (12/10) ≤ 1/10
  · rw [if_pos h1]
    exact ⟨le_trans hpad h1, by left; rfl⟩
  rw [if_neg h1]
  by_cases h2 : dataMaxOf e data * (12/10) ≤ 5/10
  · rw [if_pos h2]
    exact ⟨le_trans hpad h2, by right; left; rfl⟩
  rw [if_neg h2]
  by_cases h3 : dataMaxOf e data * (12/10) ≤ 1
  · rw [if_pos h3]
    exact ⟨le_trans hpad h3, by right; right; left; rfl⟩
  rw [if_neg h3]
  by_cases h4 : dataMaxOf e data * (12/10) ≤ 2
  · rw [if_pos h4]
    exact ⟨le_trans hpad h4, by right; right; right; left; rfl⟩
  rw [if_neg h4]
  by_cases h5 : dataMaxOf e data * (12/10) ≤ 5
  · rw [if_pos h5]
    exact ⟨le_trans hpad h5, by right; right; right; right; left; rfl⟩
  rw [if_neg h5]
  have hDpos : 0 < dataMaxOf e data := by
    have h5' := not_le.mp h5
    nlinarith
  have hMpos : 0 < trueObservedMax e data := by
    by_contra hMle
    have h0 : max 0 (trueObservedMax e data) = 0 := max_eq_left (not_lt.mp hMle)
    have := dataMax_le_max_zero_trueMax e data
    rw [h0] at this
    exact absurd (lt_of_lt_of_le hDpos this) (lt_irrefl 0)
  have hDM : dataMaxOf e data ≤ trueObservedMax e data := by
    have := dataMax_le_max_zero_trueMax e data
    rwa [max_eq_right (le_of_lt hMpos)] at this
  have hDeq : dataMaxOf e data = trueObservedMax e data := le_antisymm hDM hMD
  constructor
  · exact le_trans hpad (Int.le_ceil _)
  · right; right; right; right; right
    rw [Set.mem_singleton_iff, hDeq, mul_comm]

/-- Witness for C5 at a concrete series and a concrete `Math.exp` model. -/
theorem yAxisMax_spec_witness :
    ([exSZ] ≠ ([] : List ExcSample)) ∧
    ((12/10) * trueObservedMax (fun _ => 1) [exSZ] ≤
        calculateGlobalYAxisMax (fun _ => 1) [exSZ] ∧
      calculateGlobalYAxisMax (fun _ => 1) [exSZ] ∈
        ({1/10, 5/10, 1, 2, 5,
          ((⌈(12/10) * trueObservedMax (fun _ => 1) [exSZ]⌉ : ℤ) : ℚ)} : Set ℚ)) :=
  ⟨List.cons_ne_nil _ _, yAxisMax_spec (fun _ => 1) [exSZ] (List.cons_ne_nil _ _)⟩

/-! ## Bond inference (`MolecularViewer.createBonds`) -/

/-- `this.maxBondDistances = { 'H': 1.2, 'default': 1.8 }` (viewer.js:40-43). -/
def maxBondDistanceH : ℚ := 12/10

/-- The non-hydrogen bond threshold. -/
def maxBondDistanceDefault : ℚ := 18/10

/-- `MolecularViewer.calculateDistance` (viewer.js:485-490):
`Math.sqrt(dx*dx + dy*dy + dz*dz)`. -/
noncomputable def calculateDistance (c1 c2 : ℚ × ℚ × ℚ) : ℝ :=
  Real.sqrt (((c1.1 - c2.1) * (c1.1 - c2.1) + (c1.2.1 - c2.2.1) * (c1.2.1 - c2.2.1) +
    (c1.2.2 - c2.2.2) * (c1.2.2 - c2.2.2) : ℚ) : ℝ)

/-- The index pairs visited by the double loop of `createBonds`
(viewer.js:443-444): all `(i, j)` with `i < j < n`. -/
def pairIndices (n : ℕ) : List (ℕ × ℕ) :=
  (List.range n).flatMap (fun i =>
    ((List.range n).filter (fun j => decide (i < j))).map (fun j => (i, j)))

open Classical in
/-- `MolecularViewer.createBonds` (viewer.js:441-459), reduced to the set of
bonded index pairs it records: a pair bonds when its distance is strictly
below the hydrogen threshold (if either atom's symbol is `'H'`; an
out-of-range index reads `undefined`, which is not `'H'`) and otherwise the
default threshold. -/
noncomputable def createBonds (atoms : List String) (coords : List (ℚ × ℚ × ℚ)) :
    List (ℕ × ℕ) :=
  (pairIndices coords.length).filter (fun p =>
    decide (calculateDistance (coords.getD p.1 (0, 0, 0)) (coords.getD p.2 (0, 0, 0)) <
      ((if atoms.getD p.1 "" = "H" ∨ atoms.getD p.2 "" = "H" then maxBondDistanceH
        else maxBondDistanceDefault : ℚ) : ℝ)))

theorem mem_pairIndices {n i j : ℕ} : (i, j) ∈ pairIndices n ↔ i < j ∧ j < n := by
  simp only [pairIndices, List.mem_flatMap, List.mem_map, List.mem_filter, List.mem_range,
    decide_eq_true_eq, Prod.mk.injEq]
  constructor
  · rintro ⟨a, ha, b, ⟨hb, hab⟩, rfl, rfl⟩
    exact ⟨hab, hb⟩
  · rintro ⟨hij, hj⟩
    exact ⟨i, lt_trans hij hj, j, ⟨hj, hij⟩, rfl, rfl⟩

theorem mem_createBonds {atoms : List String} {coords : List (ℚ × ℚ × ℚ)} {i j : ℕ} :
    (i, j) ∈ createBonds atoms coords ↔
      (i < j ∧ j < coords.length) ∧
      calculateDistance (coords.getD i (0, 0, 0)) (coords.getD j (0, 0, 0)) <
        ((if atoms.getD i "" = "H" ∨ atoms.getD j "" = "H" then maxBondDistanceH
          else maxBondDistanceDefault : ℚ) : ℝ) := by
  rw [createBonds, List.mem_filter, mem_pairIndices]
  simp [decide_eq_true_eq]

theorem pairIndices_subsingleton {n : ℕ} (hn : n ≤ 1) : pairIndices n = [] := by
  interval_cases n <;> rfl

/-- C9: for equal-length atom/coordinate lists, a bond between `i` and `j`
is reported iff their Euclidean distance is strictly below the hydrogen
threshold (1.2 Å) when either atom is hydrogen, else the default threshold
(1.8 Å); and — independently of any pair — empty or single-atom input
yields an empty bond set. -/
theorem createBonds_spec (atoms : List String) (coords : List (ℚ × ℚ × ℚ))
    (_h : atoms.length = coords.length) :
    (∀ i j : ℕ, i < j → j < coords.length →
      ((i, j) ∈ createBonds atoms coords ↔
        calculateDistance (coords.getD i (0, 0, 0)) (coords.getD j (0, 0, 0)) <
          ((if atoms.getD i "" = "H" ∨ atoms.getD j "" = "H" then maxBondDistanceH
            else maxBondDistanceDefault : ℚ) : ℝ))) ∧
    (coords.length ≤ 1 → createBonds atoms coords = []) := by
  constructor
  · intro i j hij hj
    rw [mem_createBonds]
    exact ⟨fun hc => hc.2, fun hd => ⟨⟨hij, hj⟩, hd⟩⟩
  · intro hn
    rw [createBonds, pairIndices_subsingleton hn]
    rfl

/-- Witness for C9: the pair characterization on a two-atom O–H input, and
the empty bond set on a concrete single-atom input. -/
theorem createBonds_spec_witness :
    (["O", "H"].length = ([((0 : ℚ), (0 : ℚ), (0 : ℚ)), (0, 0, 1/2)] :
        List (ℚ × ℚ × ℚ)).length ∧ 0 < 1 ∧ 1 < 2 ∧
      (["O"] : List String).length = ([((0 : ℚ), (0 : ℚ), (0 : ℚ))] :
        List (ℚ × ℚ × ℚ)).length ∧
      ([((0 : ℚ), (0 : ℚ), (0 : ℚ))] : List (ℚ × ℚ × ℚ)).length ≤ 1) ∧
    (((0, 1) ∈ createBonds ["O", "H"] [((0 : ℚ), (0 : ℚ), (0 : ℚ)), (0, 0, 1/2)] ↔
      calculateDistance (([((0 : ℚ), (0 : ℚ), (0 : ℚ)), (0, 0, 1/2)].getD 0 (0, 0, 0)))
          (([((0 : ℚ), (0 : ℚ), (0 : ℚ)), (0, 0, 1/2)].getD 1 (0, 0, 0))) <
        ((if ["O", "H"].getD 0 "" = "H" ∨ ["O", "H"].getD 1 "" = "H" then maxBondDistanceH
          else maxBondDistanceDefault : ℚ) : ℝ)) ∧
    createBonds ["O"] [((0 : ℚ), (0 : ℚ), (0 : ℚ))] = []) :=
  ⟨⟨rfl, Nat.one_pos, Nat.one_lt_two, rfl, by decide⟩,
    (createBonds_spec ["O", "H"] [((0 : ℚ), (0 : ℚ), (0 : ℚ)), (0, 0, 1/2)] rfl).1 0 1
      Nat.one_pos Nat.one_lt_two,
    (createBonds_spec ["O"] [((0 : ℚ), (0 : ℚ), (0 : ℚ))] rfl).2 (by decide)⟩

/-- A one-symbol atom list, shorter than its coordinate list. -/
def mismatchAtoms : List String := ["H"]

/-- Two coordinates 0.5 Å apart, one more than the atom list has symbols. -/
def mismatchCoords : List (ℚ × ℚ × ℚ) := [(0, 0, 0), (0, 0, 1/2)]

/-- Counterexample to C10 as stated: no error type exists anywhere in the
code, and on a mismatched input `createBonds` silently produces a bond set —
here the pair `(0, 1)` bonds under the hydrogen threshold because
`atoms[0] === 'H'` while `atoms[1]` is `undefined`. -/
theorem createBonds_mismatch_counterexample :
    mismatchAtoms.length ≠ mismatchCoords.length ∧
    (0, 1) ∈ createBonds mismatchAtoms mismatchCoords := by
  constructor
  · decide
  · rw [mem_createBonds]
    refine ⟨⟨Nat.one_pos, by decide⟩, ?_⟩
    have hH : mismatchAtoms.getD 0 "" = "H" ∨ mismatchAtoms.getD 1 "" = "H" :=
      Or.inl rfl
    rw [if_pos hH]
    show Real.sqrt _ < _
    rw [show (mismatchCoords.getD 0 (0, 0, 0)) = ((0 : ℚ), (0 : ℚ), (0 : ℚ)) from rfl,
      show (mismatchCoords.getD 1 (0, 0, 0)) = ((0 : ℚ), (0 : ℚ), (1/2 : ℚ)) from rfl]
    rw [Real.sqrt_lt' (by norm_num [maxBondDistanceH])]
    push_cast
    norm_num [maxBondDistanceH]

/-- C10 (amended): `createBonds` performs no shape validation at all — the
bond-membership characterization holds verbatim for mismatched inputs, and
indices beyond the atom list are treated as non-hydrogen. -/
theorem createBonds_no_shape_check (atoms : List String) (coords : List (ℚ × ℚ × ℚ))
    (_h : atoms.length ≠ coords.length) (i j : ℕ) (hij : i < j) (hj : j < coords.length) :
    (i, j) ∈ createBonds atoms coords ↔
      calculateDistance (coords.getD i (0, 0, 0)) (coords.getD j (0, 0, 0)) <
        ((if atoms.getD i "" = "H" ∨ atoms.getD j "" = "H" then maxBondDistanceH
          else maxBondDistanceDefault : ℚ) : ℝ) := by
  rw [mem_createBonds]
  exact ⟨fun hc => hc.2, fun hd => ⟨⟨hij, hj⟩, hd⟩⟩

/-- Witness for the amended C10 at the mismatched input. -/
theorem createBonds_no_shape_check_witness :
    (mismatchAtoms.length ≠ mismatchCoords.length ∧ 0 < 1 ∧ 1 < 2) ∧
    ((0, 1) ∈ createBonds mismatchAtoms mismatchCoords ↔
      calculateDistance (mismatchCoords.getD 0 (0, 0, 0)) (mismatchCoords.getD 1 (0, 0, 0)) <
        ((if mismatchAtoms.getD 0 "" = "H" ∨ mismatchAtoms.getD 1 "" = "H" then maxBondDistanceH
          else maxBondDistanceDefault : ℚ) : ℝ)) :=
  ⟨⟨by decide, Nat.one_pos, Nat.one_lt_two⟩,
    createBonds_no_shape_check mismatchAtoms mismatchCoords (by decide) 0 1
      Nat.one_pos (by decide)⟩
